import Mathlib

/-!
Verification development for the construction-site extraction pipeline
(`extract_sites.locate_construction`) of the
Construction-Site-Satellite-Imagery-Collection repository.

The repository ships the pipeline as `extract_sites.py`; that file is not
present in the material available here (only the README and the demo
notebook are), so the core algorithm — object tracker, lifecycle merger,
tag resolver and collection assembler — is modelled from the
specification (spec.md §3, §4, §6, §7).  Dates are day numbers (`Nat`);
geometry is kept abstract behind a `GeomOps` record of the primitives the
spec assumes (IOU, area, union).
-/

namespace CSiteSpec

/-- Modelled from the spec: the literal tag value classifying an object as
under construction (spec §3, "under construction"). -/
def underConstructionTag : String := "under construction"

/-- Modelled from the spec: the sentinel recorded when no tag candidate
qualifies (spec §4.3, "NO TAG FOUND"). -/
def noTagFound : String := "NO TAG FOUND"

/-- Modelled from the spec: tag classification — is this tag the
construction state? -/
def isCons (t : String) : Bool := t == underConstructionTag

/-- Modelled from the spec: the exact-geometry primitives the core assumes
from an external library (spec §6): IOU, area and geometric union. -/
structure GeomOps (G : Type) where
  iou : G → G → ℚ
  area : G → ℚ
  gunion : G → G → G

/-- Modelled from the spec: an ObjectSnapshot (spec §3) — one tagged object
as seen in one daily snapshot.  `ctype` is the construction type
(building / landuse) recorded for the object. -/
structure Obj (G : Type) where
  oid : Nat
  tag : String
  ctype : String
  geom : G
deriving DecidableEq

/-- Modelled from the spec: a transient candidate overlap used during tag
resolution (spec §3): candidate tag, IOU with the chain geometry, and the
candidate's own area. -/
structure Scored where
  tag : String
  iou : ℚ
  area : ℚ
deriving DecidableEq

/-- Modelled from the spec: candidate ranking comparison (spec §4.3):
descending by IOU, and on exact IOU ties ascending by candidate area. -/
def candLE (c d : Scored) : Prop :=
  d.iou < c.iou ∨ (c.iou = d.iou ∧ c.area ≤ d.area)

instance candLE.decRel : DecidableRel candLE :=
  fun c d => by unfold candLE; infer_instance

/-- Modelled from the spec: rank tag candidates descending by IOU with the
area tie-break (spec §4.3 "Scoring"). -/
def rankCandidates (l : List Scored) : List Scored := List.insertionSort candLE l

/-- Modelled from the spec: a candidate qualifies as a tag answer when its
IOU meets `tag_confidence` and its own tag is not the construction state
(spec §4.3 "Selection" and the defensive construction-discard rule). -/
def qualifies (conf : ℚ) (c : Scored) : Bool :=
  decide (conf ≤ c.iou) && !(isCons c.tag)

/-- Modelled from the spec: the first qualifying candidate in ranked order,
construction-tagged candidates being discarded (spec §4.3). -/
def chooseCandidate (l : List Scored) (conf : ℚ) : Option Scored :=
  (rankCandidates l).find? (qualifies conf)

/-- Modelled from the spec: tag resolution for one side of a chain: the top
ranked qualifying candidate's tag, or the sentinel when none qualifies
(spec §4.3). -/
def resolveTag (l : List Scored) (conf : ℚ) : String :=
  match chooseCandidate l conf with
  | some c => c.tag
  | none => noTagFound

/-- Modelled from the spec: score one object against a chain geometry. -/
def scoreObj {G : Type} (ops : GeomOps G) (g : G) (o : Obj G) : Scored :=
  ⟨o.tag, ops.iou g o.geom, ops.area o.geom⟩

/-- Modelled from the spec: the boundary-date candidate set: objects of a
snapshot that overlap the chain's bounding geometry (spec §4.3). -/
def scoreAt {G : Type} (ops : GeomOps G) (objs : List (Obj G)) (g : G) : List Scored :=
  (objs.filter (fun o => decide (0 < ops.iou g o.geom))).map (scoreObj ops g)

/-- Modelled from the spec: the chain identifier — the sorted member way
ids concatenated, followed by a disambiguating serial number (spec §3,
README "chain_id"). -/
def chainId (members : List Nat) (serial : Nat) : String :=
  String.intercalate "-" ((List.insertionSort (fun a b => a ≤ b) members).map toString)
    ++ "-" ++ toString serial

/-- Modelled from the spec: an open ConstructionInterval (spec §3): current
object id, member ids in absorption order, start date, accumulated union
geometry, construction type. -/
structure Interval (G : Type) where
  oid : Nat
  members : List Nat
  startD : Nat
  geomU : G
  ctype : String
deriving DecidableEq

/-- Modelled from the spec: a closed interval, ready for tag resolution —
a ConstructionChain before its tags are attached (spec §3). -/
structure Chain (G : Type) where
  members : List Nat
  startD : Nat
  endD : Nat
  geomU : G
  ctype : String
deriving DecidableEq

/-- Modelled from the spec: the tracker state — currently open intervals
plus the chains closed so far (spec §4.1). -/
structure TrackState (G : Type) where
  tracked : List (Interval G)
  closed : List (Chain G)
deriving DecidableEq

/-- Modelled from the spec: is object `i` present with a construction tag
in the given snapshot? -/
def isConsAt {G : Type} (objs : List (Obj G)) (i : Nat) : Bool :=
  objs.any (fun o => o.oid == i && isCons o.tag)

/-- Modelled from the spec: successor candidates for the lifecycle merger —
construction-tagged objects of the day's snapshot that are not already
tracked (spec §4.2). -/
def succCandidates {G : Type} (objs : List (Obj G)) (trackedIds : List Nat) : List (Obj G) :=
  objs.filter (fun o => isCons o.tag && !(trackedIds.contains o.oid))

/-- Modelled from the spec: the successor ordering of the lifecycle merger:
candidates compared through their scores against the closing interval's
footprint, with the same IOU-then-area policy as tag resolution. -/
def succLE {G : Type} (ops : GeomOps G) (g : G) (a b : Obj G) : Prop :=
  candLE (scoreObj ops g a) (scoreObj ops g b)

instance succLE.decRel {G : Type} (ops : GeomOps G) (g : G) : DecidableRel (succLE ops g) :=
  fun a b => by unfold succLE; infer_instance

/-- Modelled from the spec: the best successor candidate: highest IOU with
the interval's footprint, ties broken by smaller area (spec §4.2
tie-break, mirroring §4.3). -/
def bestSuccessor {G : Type} (ops : GeomOps G) (g : G) (cands : List (Obj G)) : Option (Obj G) :=
  (List.insertionSort (succLE ops g) cands).head?

/-- Modelled from the spec: close an interval at day `d`. -/
def closeAt {G : Type} (d : Nat) (I : Interval G) : Chain G :=
  ⟨I.members, I.startD, d, I.geomU, I.ctype⟩

/-- Modelled from the spec: the lifecycle-merger decision for an interval
whose object stopped being construction at day `d` (spec §4.2): if the
best construction successor reaches `construction_chain_confidence` the
interval absorbs it and stays open, otherwise it finalizes as a
standalone chain ending the previous day. -/
def mergeStep {G : Type} (ops : GeomOps G) (chainConf : ℚ) (d : Nat) (I : Interval G)
    (cands : List (Obj G)) : Interval G ⊕ Chain G :=
  match bestSuccessor ops I.geomU cands with
  | some c =>
    if chainConf ≤ ops.iou I.geomU c.geom then
      Sum.inl ⟨c.oid, I.members ++ [c.oid], I.startD, ops.gunion I.geomU c.geom, I.ctype⟩
    else Sum.inr (closeAt (d - 1) I)
  | none => Sum.inr (closeAt (d - 1) I)

/-- Modelled from the spec: extend a continuing interval with the day's
geometry (the chain's bounding geometry is the union of all member
geometries across their lifetime, spec §3). -/
def updGeom {G : Type} (ops : GeomOps G) (objs : List (Obj G)) (I : Interval G) : Interval G :=
  match objs.find? (fun o => o.oid == I.oid && isCons o.tag) with
  | some o => ⟨I.oid, I.members, I.startD, ops.gunion I.geomU o.geom, I.ctype⟩
  | none => I

/-- Modelled from the spec: open a fresh interval for an object whose tag
transitioned into construction at day `d` (spec §4.1). -/
def newInterval {G : Type} (d : Nat) (o : Obj G) : Interval G :=
  ⟨o.oid, [o.oid], d, o.geom, o.ctype⟩

/-- Modelled from the spec: process one day's snapshot (spec §4.1 with the
§4.2 merger inlined at closure time): continuing intervals are extended,
intervals whose object left the construction state either absorb a
qualifying successor or close at the previous day, and untracked
construction objects open new intervals. -/
def stepDate {G : Type} (ops : GeomOps G) (chainConf : ℚ) (snap : Nat → List (Obj G))
    (st : TrackState G) (d : Nat) : TrackState G :=
  let objs := snap d
  let alive := (st.tracked.filter (fun I => isConsAt objs I.oid)).map (updGeom ops objs)
  let closing := st.tracked.filter (fun I => !(isConsAt objs I.oid))
  let trackedIds := st.tracked.map (fun I => I.oid)
  let results := closing.map (fun I => mergeStep ops chainConf d I (succCandidates objs trackedIds))
  let merged := results.filterMap (fun r => match r with | Sum.inl I => some I | Sum.inr _ => none)
  let newClosed := results.filterMap (fun r => match r with | Sum.inl _ => none | Sum.inr c => some c)
  let mergedIds := merged.map (fun I => I.oid)
  let opens := (objs.filter (fun o =>
      isCons o.tag && !(trackedIds.contains o.oid) && !(mergedIds.contains o.oid))).map (newInterval d)
  ⟨alive ++ merged ++ opens, st.closed ++ newClosed⟩

/-- Modelled from the spec: the backward walk (spec §4.1 "Backward
extension"): from the window start, step back day-by-day while the object
stays construction-tagged, bounded by a hard floor supplied as fuel; it
returns only the discovered true start date and never touches the tracked
set. -/
def backStart {G : Type} (snap : Nat → List (Obj G)) (i : Nat) : Nat → Nat → Nat
  | cur, 0 => cur
  | cur, fuel + 1 =>
    if isConsAt (snap (cur - 1)) i then backStart snap i (cur - 1) fuel else cur

/-- Modelled from the spec: initialization at the window start: every
construction-tagged object of the first snapshot opens an interval; with
`restrict_window` its start is the window start itself, otherwise the
backward walk discovers the true start (floor: the provider minimum
date). -/
def initState {G : Type} (snap : Nat → List (Obj G)) (startD minDate : Nat)
    (restrict : Bool) : TrackState G :=
  ⟨((snap startD).filter (fun o => isCons o.tag)).map (fun o =>
      ⟨o.oid, [o.oid],
        if restrict then startD else backStart snap o.oid startD (startD - minDate),
        o.geom, o.ctype⟩),
    []⟩

/-- The ascending list of days from `a` to `b` inclusive. -/
def dateRange (a b : Nat) : List Nat := List.range' a (b + 1 - a)

/-- Modelled from the spec: the tracker state after consuming every window
snapshot in ascending date order (spec §4.1). -/
def windowState {G : Type} (ops : GeomOps G) (snap : Nat → List (Obj G))
    (startD endD minDate : Nat) (restrict : Bool) (chainConf : ℚ) : TrackState G :=
  (dateRange (startD + 1) endD).foldl (stepDate ops chainConf snap)
    (initState snap startD minDate restrict)

/-- Modelled from the spec: the forward walk (spec §4.1 "Forward extension
past end_date"): starting at `cur`, step forward day-by-day within the
fuel bound; the first day the object is no longer construction yields the
discovered end date (the previous day), exhausting the fuel yields
none. -/
def forwardEnd {G : Type} (snap : Nat → List (Obj G)) (i : Nat) : Nat → Nat → Option Nat
  | _, 0 => none
  | cur, fuel + 1 =>
    if isConsAt (snap cur) i then forwardEnd snap i (cur + 1) fuel else some (cur - 1)

/-- Modelled from the spec: walk one still-open interval forward from the
day after the window end, up to 10 days past today, producing its closed
chain when its completion is discovered. -/
def forwardClose {G : Type} (snap : Nat → List (Obj G)) (endD today : Nat)
    (I : Interval G) : Option (Chain G) :=
  (forwardEnd snap I.oid (endD + 1) (today + 10 - endD)).map
    (fun e => ⟨I.members, I.startD, e, I.geomU, I.ctype⟩)

/-- Modelled from the spec: the chains additionally closed by the forward
walk; skipped entirely when `restrict_window` is set (spec §4.1). -/
def extraClosed {G : Type} (snap : Nat → List (Obj G)) (endD today : Nat)
    (restrict : Bool) (st : TrackState G) : List (Chain G) :=
  if restrict then [] else st.tracked.filterMap (forwardClose snap endD today)

/-- Modelled from the spec: the intervals that remain open after the
window (all of them under `restrict_window`, otherwise those the forward
walk could not close); these feed the work-in-progress output only. -/
def stillOpen {G : Type} (snap : Nat → List (Obj G)) (endD today : Nat)
    (restrict : Bool) (st : TrackState G) : List (Interval G) :=
  if restrict then st.tracked
  else st.tracked.filter (fun I => (forwardClose snap endD today I).isNone)

/-- Modelled from the spec: one output row (spec §6 persisted output):
chain id, member ids, start, end, construction type, previous and final
tag, bounding geometry. -/
structure Row (G : Type) where
  chain_id : String
  members : List Nat
  startD : Nat
  endD : Nat
  ctype : String
  prev_tag : String
  final_tag : String
  geom : G
deriving DecidableEq

/-- Modelled from the spec: assemble the row of a completed chain: tags
resolved against the boundary-date snapshots (day before the start, day
after the end, spec §4.3). -/
def mkRow {G : Type} (ops : GeomOps G) (snap : Nat → List (Obj G)) (tagConf : ℚ)
    (serial : Nat) (c : Chain G) : Row G :=
  ⟨chainId c.members serial, c.members, c.startD, c.endD, c.ctype,
    resolveTag (scoreAt ops (snap (c.startD - 1)) c.geomU) tagConf,
    resolveTag (scoreAt ops (snap (c.endD + 1)) c.geomU) tagConf,
    c.geomU⟩

/-- Modelled from the spec: assemble the row of a work-in-progress chain:
previous tag resolved, final tag absent (sentinel), end date reported as
the window end (spec §4.4). -/
def mkWipRow {G : Type} (ops : GeomOps G) (snap : Nat → List (Obj G)) (tagConf : ℚ)
    (endD : Nat) (serial : Nat) (I : Interval G) : Row G :=
  ⟨chainId I.members serial, I.members, I.startD, endD, I.ctype,
    resolveTag (scoreAt ops (snap (I.startD - 1)) I.geomU) tagConf,
    noTagFound, I.geomU⟩

/-- Number the elements of a list consecutively from `i` and map each
through `f` — the assembler's serial numbering. -/
def assemble {α β : Type} (f : Nat → α → β) : Nat → List α → List β
  | _, [] => []
  | i, c :: cs => f i c :: assemble f (i + 1) cs

/-- Modelled from the spec: the configuration surface consumed by the core
(spec §6): window bounds, provider minimum date, today's date, the three
flags and the two confidence thresholds. -/
structure Config where
  startD : Nat
  endD : Nat
  minDate : Nat
  today : Nat
  restrictWindow : Bool
  saveWip : Bool
  keepTemp : Bool
  tagConf : ℚ
  chainConf : ℚ
deriving DecidableEq

/-- Modelled from the spec: the error taxonomy entry relevant to window
validation (spec §7). -/
inductive ExtractError where
  | invalidWindow : ExtractError
deriving DecidableEq

/-- Modelled from the spec: a successful run's outcome: the two in-memory
tables plus the files written to the output store. -/
structure RunResult (G : Type) where
  in_progress : List (Row G)
  collection : List (Row G)
  files : List (String × List (Row G))
deriving DecidableEq

/-- Path of the completed-collection output file. -/
def collectionFile : String := "output/collection/collection.shp"

/-- Path of the work-in-progress output file. -/
def inProgressFile : String := "output/collection/in_progress.shp"

/-- Modelled from the spec: window validation (spec §4.1, §7): the start
must not precede the provider minimum date (2015-06-22 in the
documentation), the end must not exceed ten days past today, and the
start must not exceed the end. -/
def validWindow (cfg : Config) : Bool :=
  decide (cfg.minDate ≤ cfg.startD) && decide (cfg.endD ≤ cfg.today + 10)
    && decide (cfg.startD ≤ cfg.endD)

/-- The tracker state a run computes over its window. -/
def pipeState {G : Type} (ops : GeomOps G) (cfg : Config)
    (snap : Nat → List (Obj G)) : TrackState G :=
  windowState ops snap cfg.startD cfg.endD cfg.minDate cfg.restrictWindow cfg.chainConf

/-- All chains a run closes: those closed inside the window plus those the
forward walk closes. -/
def pipeClosed {G : Type} (ops : GeomOps G) (cfg : Config)
    (snap : Nat → List (Obj G)) : List (Chain G) :=
  (pipeState ops cfg snap).closed
    ++ extraClosed snap cfg.endD cfg.today cfg.restrictWindow (pipeState ops cfg snap)

/-- The intervals a run leaves open, feeding the work-in-progress table. -/
def pipeOpen {G : Type} (ops : GeomOps G) (cfg : Config)
    (snap : Nat → List (Obj G)) : List (Interval G) :=
  stillOpen snap cfg.endD cfg.today cfg.restrictWindow (pipeState ops cfg snap)

/-- Modelled from the spec: `extract_sites.locate_construction` — validate
the window, run the tracker over the window, extend forward unless
restricted, resolve tags, and return the work-in-progress and completed
tables together with the written files (the completed collection always,
the in-progress table only under `save_wip`). -/
def locate_construction {G : Type} (ops : GeomOps G) (cfg : Config)
    (snap : Nat → List (Obj G)) : Except ExtractError (RunResult G) :=
  if validWindow cfg then
    let coll := assemble (mkRow ops snap cfg.tagConf) 0 (pipeClosed ops cfg snap)
    let wip := assemble (mkWipRow ops snap cfg.tagConf cfg.endD) 0 (pipeOpen ops cfg snap)
    Except.ok ⟨wip, coll,
      (collectionFile, coll) :: (if cfg.saveWip then [(inProgressFile, wip)] else [])⟩
  else Except.error ExtractError.invalidWindow

/-- The files a run writes: none when it fails. -/
def writtenFiles {G : Type} : Except ExtractError (RunResult G) → List (String × List (Row G))
  | Except.error _ => []
  | Except.ok r => r.files

/-- The pair a successful run returns in memory, in its fixed order:
work-in-progress table first, completed collection second. -/
def returnedPair {G : Type} (r : RunResult G) : List (Row G) × List (Row G) :=
  (r.in_progress, r.collection)

deriving instance DecidableEq for Except

/-- Concrete geometry used to evaluate the model on sample runs: a
"geometry" is a rational whose value is read back as its IOU against
anything and as its own area; union keeps the first geometry. -/
def eOps : GeomOps ℚ := ⟨fun _ c => c, id, fun a _ => a⟩

/-- Sample snapshot stream: object 1 under construction on days 5..12. -/
def snapA : Nat → List (Obj ℚ) := fun d =>
  if 5 ≤ d ∧ d ≤ 12 then [⟨1, "under construction", "building", 1⟩] else []

/-- Sample configuration: window 5..10, unrestricted. -/
def cfgA : Config := ⟨5, 10, 0, 5, false, false, false, 1, 1⟩

/-- Sample snapshot stream: object 1 under construction on days 5..7. -/
def snapB : Nat → List (Obj ℚ) := fun d =>
  if 5 ≤ d ∧ d ≤ 7 then [⟨1, "under construction", "building", 1⟩] else []

/-- Sample configuration: window 5..10 with `restrict_window` set. -/
def cfgB : Config := ⟨5, 10, 0, 5, true, false, false, 1, 1⟩

/-- Sample snapshot stream exercising the lifecycle merger and the tag
resolver: IOU scores are integer-valued rationals here; object 10 is
under construction on days 5..7, object 20 (IOU 9) replaces it on days
8..9, a park precedes on day 4, retail and a low-IOU construction object
follow on day 10. -/
def snapC : Nat → List (Obj ℚ) := fun d =>
  if d = 4 then [⟨7, "park", "na", 9⟩]
  else if 5 ≤ d ∧ d ≤ 7 then [⟨10, "under construction", "building", 10⟩]
  else if 8 ≤ d ∧ d ≤ 9 then [⟨20, "under construction", "building", 9⟩]
  else if d = 10 then [⟨8, "retail", "na", 8⟩, ⟨9, "under construction", "landuse", 2⟩]
  else []

/-- Sample configuration: window 5..10, unrestricted, saving the
work-in-progress table; thresholds are integer-valued rationals. -/
def cfgC : Config := ⟨5, 10, 0, 5, false, true, false, 5, 5⟩

/-- Member id `i` was seen under construction on some day of `[lo, hi]`. -/
def memWitness {G : Type} (snap : Nat → List (Obj G)) (lo hi : Nat) (ms : List Nat) : Prop :=
  ∀ i ∈ ms, ∃ d, lo ≤ d ∧ d ≤ hi ∧ isConsAt (snap d) i = true

/-- Tracker-state invariant: every member id of every tracked interval and
of every closed chain was under construction on some day of the
window. -/
def stateOK {G : Type} (snap : Nat → List (Obj G)) (lo hi : Nat) (st : TrackState G) : Prop :=
  (∀ I ∈ st.tracked, memWitness snap lo hi I.members)
    ∧ ∀ ch ∈ st.closed, memWitness snap lo hi ch.members

/-- Sample closing interval used to exercise the lifecycle merger. -/
def intervalW : Interval ℚ := ⟨10, [10], 5, 10, "building"⟩

/-- Sample successor candidate list with a qualifying candidate. -/
def candsW : List (Obj ℚ) := [⟨20, "under construction", "building", 9⟩]

/-- Sample successor candidate list whose only candidate scores below the
chain-confidence threshold. -/
def candsLow : List (Obj ℚ) := [⟨30, "under construction", "building", 2⟩]

/-- The result of the sample run of `cfgA`/`snapA`, written out. -/
def resA : RunResult ℚ :=
  ⟨[], [⟨"1-0", [1], 5, 12, "building", noTagFound, noTagFound, 1⟩],
    [(collectionFile, [⟨"1-0", [1], 5, 12, "building", noTagFound, noTagFound, 1⟩])]⟩

/-- The result of the sample run of `cfgB`/`snapB`, written out. -/
def resB : RunResult ℚ :=
  ⟨[], [⟨"1-0", [1], 5, 7, "building", noTagFound, noTagFound, 1⟩],
    [(collectionFile, [⟨"1-0", [1], 5, 7, "building", noTagFound, noTagFound, 1⟩])]⟩

/-- First collection row of the sample run of `cfgC`/`snapC`: the merged
chain of objects 10 and 20. -/
def rowC1 : Row ℚ := ⟨"10-20-0", [10, 20], 5, 9, "building", "park", "retail", 10⟩

/-- Second collection row of the sample run of `cfgC`/`snapC`. -/
def rowC2 : Row ℚ := ⟨"9-1", [9], 10, 10, "landuse", noTagFound, noTagFound, 2⟩

/-- The result of the sample run of `cfgC`/`snapC`, written out. -/
def resC : RunResult ℚ :=
  ⟨[], [rowC1, rowC2], [(collectionFile, [rowC1, rowC2]), (inProgressFile, [])]⟩

end CSiteSpec

namespace CSiteSpec

theorem candLE_total (c d : Scored) : candLE c d ∨ candLE d c := by
  unfold candLE
  rcases lt_trichotomy c.iou d.iou with h | h | h
  · exact Or.inr (Or.inl h)
  · rcases le_total c.area d.area with ha | ha
    · exact Or.inl (Or.inr ⟨h, ha⟩)
    · exact Or.inr (Or.inr ⟨h.symm, ha⟩)
  · exact Or.inl (Or.inl h)

theorem candLE_trans (a b c : Scored) : candLE a b → candLE b c → candLE a c := by
  unfold candLE
  rintro (h1 | ⟨h1, h1a⟩) (h2 | ⟨h2, h2a⟩)
  · exact Or.inl (h2.trans h1)
  · exact Or.inl (h2 ▸ h1)
  · exact Or.inl (h1 ▸ h2)
  · exact Or.inr ⟨h1.trans h2, h1a.trans h2a⟩

instance candLE.isTotal : IsTotal Scored candLE := ⟨candLE_total⟩

instance candLE.isTrans : IsTrans Scored candLE := ⟨candLE_trans⟩

instance succLE.isTotal {G : Type} (ops : GeomOps G) (g : G) : IsTotal (Obj G) (succLE ops g) :=
  ⟨fun a b => candLE_total _ _⟩

instance succLE.isTrans {G : Type} (ops : GeomOps G) (g : G) : IsTrans (Obj G) (succLE ops g) :=
  ⟨fun a b c => candLE_trans _ _ _⟩

theorem rankCandidates_sorted (l : List Scored) : (rankCandidates l).Pairwise candLE :=
  List.sorted_insertionSort candLE l

theorem rankCandidates_perm (l : List Scored) : (rankCandidates l).Perm l :=
  List.perm_insertionSort candLE l

/-- In a `Pairwise R` list, the element found by `find?` either is any
given member satisfying the predicate, or is `R`-before it. -/
theorem find_first_better {α : Type} (p : α → Bool) (R : α → α → Prop) :
    ∀ (l : List α) (a b : α), l.Pairwise R → l.find? p = some b → a ∈ l → p a = true →
      b = a ∨ R b a := by
  intro l
  induction l with
  | nil => intro a b _ hf _ _; simp at hf
  | cons x t ih =>
    intro a b hp hf ha hpa
    by_cases hx : p x = true
    · rw [List.find?_cons_of_pos _ hx] at hf
      have hbx : x = b := by simpa using hf
      rcases List.mem_cons.mp ha with rfl | hat
      · exact Or.inl hbx.symm
      · exact Or.inr (hbx ▸ (List.pairwise_cons.mp hp).1 a hat)
    · rw [List.find?_cons_of_neg _ hx] at hf
      have hax : a ≠ x := by
        intro h
        exact hx (h ▸ hpa)
      rcases List.mem_cons.mp ha with rfl | hat
      · exact absurd rfl hax
      · exact ih a b (List.pairwise_cons.mp hp).2 hf hat hpa

theorem not_candLE_of_tie (c1 c2 : Scored) (hiou : c1.iou = c2.iou)
    (harea : c1.area < c2.area) : ¬ candLE c2 c1 := by
  unfold candLE
  rintro (h | ⟨h, ha⟩)
  · exact absurd (hiou ▸ h) (lt_irrefl _)
  · exact absurd harea (not_lt.mpr ha)

/-- C1: the pipeline is deterministic: the chain id is a function of the
sorted member way ids and the serial number only — any permutation of
the member ids (any iteration order of an unordered structure) yields the
same chain id — and two runs of `locate_construction` on identical
snapshot input and identical configuration return identical outputs. -/
theorem claim_C1_determinism :
    (∀ (m m' : List Nat) (serial : Nat), m.Perm m' → chainId m serial = chainId m' serial)
    ∧ ∀ (G : Type) (ops : GeomOps G) (cfg : Config) (snap : Nat → List (Obj G)),
        locate_construction ops cfg snap = locate_construction ops cfg snap := by
  constructor
  · intro m m' serial h
    have hsort : List.insertionSort (fun a b => a ≤ b) m
        = List.insertionSort (fun a b => a ≤ b) m' := by
      exact @List.eq_of_perm_of_sorted ℕ (fun a b => a ≤ b)
        (inferInstance : IsAntisymm ℕ (fun a b : ℕ => a ≤ b)) _ _
        ((List.perm_insertionSort _ m).trans (h.trans (List.perm_insertionSort _ m').symm))
        (List.sorted_insertionSort _ m) (List.sorted_insertionSort _ m')
    unfold chainId
    rw [hsort]
  · intro G ops cfg snap
    rfl

theorem claim_C1_witness :
    chainId [2, 1] 0 = chainId [1, 2] 0 ∧ chainId [2, 1] 0 = "1-2-0" := by
  constructor
  · exact claim_C1_determinism.1 [2, 1] [1, 2] 0 (List.Perm.swap 1 2 [])
  · decide

/-- C2: in tag resolution candidates are ranked by descending IOU; two
candidates with exactly equal IOU are ordered by ascending area: for any
supplied candidate list, every position of the smaller-area candidate
precedes every position of the larger one in the ranked list, and the
larger one is never the chosen candidate while the smaller one
qualifies. -/
theorem claim_C2_iou_tie_break (l : List Scored) (conf : ℚ) (c1 c2 : Scored)
    (h1 : c1 ∈ l) (h2 : c2 ∈ l) (hiou : c1.iou = c2.iou) (harea : c1.area < c2.area) :
    (∀ i j (hi : i < (rankCandidates l).length) (hj : j < (rankCandidates l).length),
        (rankCandidates l).get ⟨i, hi⟩ = c1 → (rankCandidates l).get ⟨j, hj⟩ = c2 → i < j)
    ∧ (qualifies conf c1 = true → chooseCandidate l conf ≠ some c2) := by
  have hne : c1 ≠ c2 := by
    intro h
    exact absurd (h ▸ harea) (lt_irrefl _)
  have hnot : ¬ candLE c2 c1 := not_candLE_of_tie c1 c2 hiou harea
  have hpw := rankCandidates_sorted l
  have hget := (List.pairwise_iff_getElem).mp hpw
  constructor
  · intro i j hi hj hci hcj
    rcases lt_trichotomy i j with h | h | h
    · exact h
    · exfalso
      apply hne
      rw [← hci, ← hcj]
      simp [h]
    · exfalso
      apply hnot
      have := hget j i hj hi h
      rw [List.get_eq_getElem] at hci hcj
      rw [hci, hcj] at this
      exact this
  · intro hq hc
    have h1r : c1 ∈ rankCandidates l := (rankCandidates_perm l).symm.subset h1
    rcases find_first_better (qualifies conf) candLE (rankCandidates l) c1 c2 hpw hc h1r hq with
      h | h
    · exact hne h.symm
    · exact hnot h

theorem claim_C2_witness :
    qualifies 1 (⟨"b", 1, 3⟩ : Scored) = true ∧
      chooseCandidate [⟨"a", 1, 5⟩, ⟨"b", 1, 3⟩] 1 ≠ some ⟨"a", 1, 5⟩ := by
  constructor
  · decide
  · exact (claim_C2_iou_tie_break [⟨"a", 1, 5⟩, ⟨"b", 1, 3⟩] 1 ⟨"b", 1, 3⟩
      ⟨"a", 1, 5⟩ (by decide) (by decide) (by decide) (by decide)).2 (by decide)

/-- C7: an invalid window — start before the provider minimum date, end
later than ten days past today, or start after end — is rejected with the
InvalidWindow error and nothing is written. -/
theorem claim_C7_invalid_window {G : Type} (ops : GeomOps G) (cfg : Config)
    (snap : Nat → List (Obj G))
    (h : cfg.startD < cfg.minDate ∨ cfg.today + 10 < cfg.endD ∨ cfg.endD < cfg.startD) :
    locate_construction ops cfg snap = Except.error ExtractError.invalidWindow ∧
      writtenFiles (locate_construction ops cfg snap) = [] := by
  have hv : validWindow cfg = false := by
    simp only [validWindow, Bool.and_eq_false_iff, decide_eq_false_iff_not, not_le]
    omega
  unfold locate_construction
  rw [hv]
  exact ⟨rfl, rfl⟩

theorem claim_C7_witness :
    locate_construction eOps ⟨8, 5, 0, 5, false, false, false, 1, 1⟩ snapA
        = Except.error ExtractError.invalidWindow ∧
      writtenFiles (locate_construction eOps ⟨8, 5, 0, 5, false, false, false, 1, 1⟩ snapA)
        = [] :=
  claim_C7_invalid_window eOps ⟨8, 5, 0, 5, false, false, false, 1, 1⟩ snapA
    (by decide)

end CSiteSpec

namespace CSiteSpec

theorem assemble_mem_rev {α β : Type} (f : Nat → α → β) :
    ∀ (i : Nat) (l : List α) (b : β), b ∈ assemble f i l → ∃ j a, a ∈ l ∧ b = f j a := by
  intro i l
  induction l generalizing i with
  | nil => intro b hb; simp [assemble] at hb
  | cons x t ih =>
    intro b hb
    rw [assemble] at hb
    rcases List.mem_cons.mp hb with h | h
    · exact ⟨i, x, List.mem_cons_self x t, h⟩
    · rcases ih (i + 1) b h with ⟨j, a, ha, hba⟩
      exact ⟨j, a, List.mem_cons_of_mem x ha, hba⟩

theorem assemble_mem {α β : Type} (f : Nat → α → β) :
    ∀ (i : Nat) (l : List α) (a : α), a ∈ l → ∃ j, f j a ∈ assemble f i l := by
  intro i l
  induction l generalizing i with
  | nil => intro a ha; simp at ha
  | cons x t ih =>
    intro a ha
    rcases List.mem_cons.mp ha with rfl | h
    · exact ⟨i, by rw [assemble]; exact List.mem_cons_self _ _⟩
    · rcases ih (i + 1) a h with ⟨j, hj⟩
      exact ⟨j, by rw [assemble]; exact List.mem_cons_of_mem _ hj⟩

theorem qualifies_elim (conf : ℚ) (c : Scored) (h : qualifies conf c = true) :
    conf ≤ c.iou ∧ isCons c.tag = false := by
  unfold qualifies at h
  rcases Bool.and_eq_true_iff.mp h with ⟨h1, h2⟩
  exact ⟨of_decide_eq_true h1, by simpa using h2⟩

theorem resolveTag_ne_construction (l : List Scored) (conf : ℚ) :
    resolveTag l conf ≠ underConstructionTag := by
  unfold resolveTag
  cases hc : chooseCandidate l conf with
  | none => decide
  | some c =>
    unfold chooseCandidate at hc
    have hq := List.find?_some hc
    have hfalse := (qualifies_elim conf c hq).2
    intro h
    have h2 : c.tag = underConstructionTag := h
    rw [isCons, h2] at hfalse
    simp at hfalse

theorem locate_ok_elim {G : Type} (ops : GeomOps G) (cfg : Config)
    (snap : Nat → List (Obj G)) (r : RunResult G)
    (hr : locate_construction ops cfg snap = Except.ok r) :
    validWindow cfg = true ∧
      r.in_progress = assemble (mkWipRow ops snap cfg.tagConf cfg.endD) 0 (pipeOpen ops cfg snap) ∧
      r.collection = assemble (mkRow ops snap cfg.tagConf) 0 (pipeClosed ops cfg snap) ∧
      r.files = (collectionFile, r.collection)
        :: (if cfg.saveWip then [(inProgressFile, r.in_progress)] else []) := by
  unfold locate_construction at hr
  cases hv : validWindow cfg with
  | false => rw [hv] at hr; simp at hr
  | true =>
    rw [hv] at hr
    simp only [if_true] at hr
    have := (Except.ok.injEq _ _).mp hr
    subst this
    exact ⟨rfl, rfl, rfl, rfl⟩

/-- C8: the top-ranked candidate is accepted only when its IOU reaches
`tag_confidence`: an accepted candidate always has IOU at least the
threshold (and is not construction-tagged), and when no candidate
qualifies the tag field is the sentinel "NO TAG FOUND"; moreover a run
with a valid window always completes normally — absence of a qualifying
tag is never surfaced as a failure. -/
theorem claim_C8_tag_confidence :
    (∀ (l : List Scored) (conf : ℚ) (c : Scored),
        chooseCandidate l conf = some c →
          conf ≤ c.iou ∧ isCons c.tag = false ∧ resolveTag l conf = c.tag)
    ∧ (∀ (l : List Scored) (conf : ℚ),
        chooseCandidate l conf = none → resolveTag l conf = noTagFound)
    ∧ ∀ (G : Type) (ops : GeomOps G) (cfg : Config) (snap : Nat → List (Obj G)),
        validWindow cfg = true → ∃ r, locate_construction ops cfg snap = Except.ok r := by
  refine ⟨?_, ?_, ?_⟩
  · intro l conf c hc
    have hq := List.find?_some (by rw [← chooseCandidate] ; exact hc)
    rcases qualifies_elim conf c hq with ⟨h1, h2⟩
    refine ⟨h1, h2, ?_⟩
    unfold resolveTag
    rw [hc]
  · intro l conf hc
    unfold resolveTag
    rw [hc]
  · intro G ops cfg snap hv
    unfold locate_construction
    rw [if_pos hv]
    exact ⟨_, rfl⟩

theorem claim_C8_witness :
    resolveTag [⟨"park", 9, 9⟩] 5 = "park" ∧ resolveTag [] 5 = noTagFound ∧
      ∃ r, locate_construction eOps cfgA snapA = Except.ok r :=
  ⟨(claim_C8_tag_confidence.1 [⟨"park", 9, 9⟩] 5 ⟨"park", 9, 9⟩ (by decide)).2.2,
    claim_C8_tag_confidence.2.1 [] 5 (by decide),
    claim_C8_tag_confidence.2.2 ℚ eOps cfgA snapA (by decide)⟩

/-- C3: no chain emitted by the pipeline, whether completed or
work-in-progress, ever carries the construction value as its previous or
final tag: construction-tagged candidates are discarded during
resolution, so every endpoint is a non-construction label or the
sentinel. -/
theorem claim_C3_no_construction_endpoints {G : Type} (ops : GeomOps G) (cfg : Config)
    (snap : Nat → List (Obj G)) (r : RunResult G)
    (hr : locate_construction ops cfg snap = Except.ok r) :
    ∀ row ∈ r.in_progress ++ r.collection,
      row.prev_tag ≠ underConstructionTag ∧ row.final_tag ≠ underConstructionTag := by
  obtain ⟨hv, hw, hc, hf⟩ := locate_ok_elim ops cfg snap r hr
  intro row hrow
  rcases List.mem_append.mp hrow with h | h
  · rw [hw] at h
    rcases assemble_mem_rev _ 0 _ row h with ⟨j, I, hI, hrw⟩
    subst hrw
    exact ⟨resolveTag_ne_construction _ _, (by decide : noTagFound ≠ underConstructionTag)⟩
  · rw [hc] at h
    rcases assemble_mem_rev _ 0 _ row h with ⟨j, c, hcm, hrw⟩
    subst hrw
    exact ⟨resolveTag_ne_construction _ _, resolveTag_ne_construction _ _⟩

theorem claim_C3_witness :
    rowC1.prev_tag ≠ underConstructionTag ∧ rowC1.final_tag ≠ underConstructionTag :=
  claim_C3_no_construction_endpoints eOps cfgC snapC resC (by decide) rowC1 (by decide)

end CSiteSpec

namespace CSiteSpec

theorem updGeom_oid {G : Type} (ops : GeomOps G) (objs : List (Obj G)) (I : Interval G) :
    (updGeom ops objs I).oid = I.oid := by
  unfold updGeom
  cases objs.find? (fun o => o.oid == I.oid && isCons o.tag) <;> rfl

theorem updGeom_members {G : Type} (ops : GeomOps G) (objs : List (Obj G)) (I : Interval G) :
    (updGeom ops objs I).members = I.members := by
  unfold updGeom
  cases objs.find? (fun o => o.oid == I.oid && isCons o.tag) <;> rfl

theorem updGeom_startD {G : Type} (ops : GeomOps G) (objs : List (Obj G)) (I : Interval G) :
    (updGeom ops objs I).startD = I.startD := by
  unfold updGeom
  cases objs.find? (fun o => o.oid == I.oid && isCons o.tag) <;> rfl

theorem bestSuccessor_some_elim {G : Type} (ops : GeomOps G) (g : G) (cands : List (Obj G))
    (b : Obj G) (h : bestSuccessor ops g cands = some b) :
    b ∈ cands ∧ ∀ c ∈ cands, ops.iou g c.geom ≤ ops.iou g b.geom := by
  unfold bestSuccessor at h
  have hsorted := List.sorted_insertionSort (succLE ops g) cands
  have hperm := List.perm_insertionSort (succLE ops g) cands
  cases hs : List.insertionSort (succLE ops g) cands with
  | nil => rw [hs] at h; simp at h
  | cons x t =>
    rw [hs] at h
    have hxb : x = b := by simpa using h
    subst hxb
    rw [hs] at hsorted hperm
    constructor
    · exact hperm.subset (List.mem_cons_self x t)
    · intro c hc
      rcases List.mem_cons.mp (hperm.symm.subset hc) with rfl | hct
      · exact le_refl _
      · have hle := (List.pairwise_cons.mp hsorted).1 c hct
        simp only [succLE, candLE, scoreObj] at hle
        rcases hle with hlt | ⟨heq, _⟩
        · exact le_of_lt hlt
        · exact le_of_eq heq.symm

theorem mergeStep_inl_elim {G : Type} (ops : GeomOps G) (cc : ℚ) (d : Nat) (I : Interval G)
    (cands : List (Obj G)) (I2 : Interval G)
    (h : mergeStep ops cc d I cands = Sum.inl I2) :
    ∃ c ∈ cands, cc ≤ ops.iou I.geomU c.geom
      ∧ (∀ c2 ∈ cands, ops.iou I.geomU c2.geom ≤ ops.iou I.geomU c.geom)
      ∧ I2 = ⟨c.oid, I.members ++ [c.oid], I.startD, ops.gunion I.geomU c.geom, I.ctype⟩ := by
  unfold mergeStep at h
  split at h
  · rename_i c hb
    split at h
    · rename_i hcc
      rcases bestSuccessor_some_elim ops I.geomU cands c hb with ⟨hmem, hmax⟩
      refine ⟨c, hmem, hcc, hmax, ?_⟩
      have := (Sum.inl.injEq _ _).mp h
      exact this.symm
    · simp at h
  · simp at h

theorem mergeStep_inr_elim {G : Type} (ops : GeomOps G) (cc : ℚ) (d : Nat) (I : Interval G)
    (cands : List (Obj G)) (ch : Chain G)
    (h : mergeStep ops cc d I cands = Sum.inr ch) : ch = closeAt (d - 1) I := by
  unfold mergeStep at h
  split at h
  · rename_i c hb
    split at h
    · simp at h
    · exact ((Sum.inr.injEq _ _).mp h).symm
  · exact ((Sum.inr.injEq _ _).mp h).symm

theorem stepDate_closed_mono {G : Type} (ops : GeomOps G) (cc : ℚ) (snap : Nat → List (Obj G))
    (st : TrackState G) (d : Nat) (ch : Chain G) (h : ch ∈ st.closed) :
    ch ∈ (stepDate ops cc snap st d).closed := by
  unfold stepDate
  exact List.mem_append_left _ h

theorem foldl_closed_mono {G : Type} (ops : GeomOps G) (cc : ℚ) (snap : Nat → List (Obj G)) :
    ∀ (l : List Nat) (st : TrackState G) (ch : Chain G), ch ∈ st.closed →
      ch ∈ (l.foldl (stepDate ops cc snap) st).closed := by
  intro l
  induction l with
  | nil => intro st ch h; simpa using h
  | cons x t ih =>
    intro st ch h
    rw [List.foldl_cons]
    exact ih _ ch (stepDate_closed_mono ops cc snap st x ch h)

theorem isConsAt_of_mem {G : Type} (objs : List (Obj G)) (c : Obj G) (hc : c ∈ objs)
    (ht : isCons c.tag = true) : isConsAt objs c.oid = true := by
  unfold isConsAt
  rw [List.any_eq_true]
  exact ⟨c, hc, by simp [ht]⟩

theorem isConsAt_false_of_all {G : Type} (objs : List (Obj G)) (i : Nat)
    (h : ∀ c ∈ objs, isCons c.tag = false) : isConsAt objs i = false := by
  unfold isConsAt
  rw [List.any_eq_false]
  intro o ho
  simp [h o ho]

theorem succCandidates_elim {G : Type} (objs : List (Obj G)) (ids : List Nat) (c : Obj G)
    (h : c ∈ succCandidates objs ids) : c ∈ objs ∧ isCons c.tag = true := by
  unfold succCandidates at h
  rcases List.mem_filter.mp h with ⟨hm, hp⟩
  exact ⟨hm, (Bool.and_eq_true_iff.mp hp).1⟩

theorem stepDate_stateOK {G : Type} (ops : GeomOps G) (cc : ℚ) (snap : Nat → List (Obj G))
    (lo hi d : Nat) (hd1 : lo ≤ d) (hd2 : d ≤ hi) (st : TrackState G)
    (h : stateOK snap lo hi st) : stateOK snap lo hi (stepDate ops cc snap st d) := by
  obtain ⟨ht, hc⟩ := h
  constructor
  · intro I hI
    simp only [stepDate, List.mem_append] at hI
    rcases hI with (hI | hI) | hI
    · rcases List.mem_map.mp hI with ⟨I0, hI0, rfl⟩
      rcases List.mem_filter.mp hI0 with ⟨hI0t, _⟩
      intro i hi
      rw [updGeom_members] at hi
      exact ht I0 hI0t i hi
    · rcases List.mem_filterMap.mp hI with ⟨res, hres, heq⟩
      rcases List.mem_map.mp hres with ⟨I0, hI0, rfl⟩
      rcases List.mem_filter.mp hI0 with ⟨hI0t, _⟩
      split at heq
      · rename_i I1 hm
        have hI1 : I1 = I := by simpa using heq
        subst hI1
        rcases mergeStep_inl_elim ops cc d I0 _ I1 hm with ⟨c, hcmem, _, _, hIeq⟩
        subst hIeq
        intro i hi
        simp only [List.mem_append, List.mem_singleton] at hi
        rcases hi with hi | rfl
        · exact ht I0 hI0t i hi
        · rcases succCandidates_elim _ _ c hcmem with ⟨hco, hct⟩
          exact ⟨d, hd1, hd2, isConsAt_of_mem _ c hco hct⟩
      · simp at heq
    · rcases List.mem_map.mp hI with ⟨o, ho, rfl⟩
      rcases List.mem_filter.mp ho with ⟨hoo, hop⟩
      have hocons : isCons o.tag = true := by
        rcases Bool.and_eq_true_iff.mp hop with ⟨h1, _⟩
        exact (Bool.and_eq_true_iff.mp h1).1
      intro i hi
      simp only [newInterval, List.mem_singleton] at hi
      subst hi
      exact ⟨d, hd1, hd2, isConsAt_of_mem _ o hoo hocons⟩
  · intro ch hch
    simp only [stepDate, List.mem_append] at hch
    rcases hch with hch | hch
    · exact hc ch hch
    · rcases List.mem_filterMap.mp hch with ⟨res, hres, heq⟩
      rcases List.mem_map.mp hres with ⟨I0, hI0, rfl⟩
      rcases List.mem_filter.mp hI0 with ⟨hI0t, _⟩
      split at heq
      · simp at heq
      · rename_i ch1 hm
        have hch1 : ch1 = ch := by simpa using heq
        subst hch1
        have := mergeStep_inr_elim ops cc d I0 _ ch1 hm
        subst this
        intro i hi
        simp only [closeAt] at hi
        exact ht I0 hI0t i hi

theorem windowState_stateOK {G : Type} (ops : GeomOps G) (snap : Nat → List (Obj G))
    (startD endD minDate : Nat) (restrict : Bool) (cc : ℚ) (hse : startD ≤ endD) :
    stateOK snap startD endD (windowState ops snap startD endD minDate restrict cc) := by
  unfold windowState
  apply List.foldlRecOn
  · constructor
    · intro I hI
      simp only [initState, List.mem_map, List.mem_filter] at hI
      rcases hI with ⟨o, ⟨ho, hcons⟩, rfl⟩
      intro i hi
      simp only [List.mem_singleton] at hi
      subst hi
      exact ⟨startD, le_refl _, hse, isConsAt_of_mem _ o ho hcons⟩
    · intro ch hch
      simp only [initState] at hch
      simp at hch
  · intro st hst a ha
    unfold dateRange at ha
    have hmem := List.mem_range'_1.mp ha
    exact stepDate_stateOK ops cc snap startD endD a (by omega) (by omega) st hst

theorem validWindow_elim (cfg : Config) (h : validWindow cfg = true) :
    cfg.minDate ≤ cfg.startD ∧ cfg.endD ≤ cfg.today + 10 ∧ cfg.startD ≤ cfg.endD := by
  unfold validWindow at h
  simp only [Bool.and_eq_true, decide_eq_true_eq] at h
  exact ⟨h.1.1, h.1.2, h.2⟩

end CSiteSpec

namespace CSiteSpec

theorem forwardClose_elim {G : Type} (snap : Nat → List (Obj G)) (endD today : Nat)
    (I : Interval G) (ch : Chain G) (h : forwardClose snap endD today I = some ch) :
    ch.members = I.members ∧ ch.startD = I.startD
      ∧ ∃ e, forwardEnd snap I.oid (endD + 1) (today + 10 - endD) = some e ∧ ch.endD = e := by
  unfold forwardClose at h
  cases he : forwardEnd snap I.oid (endD + 1) (today + 10 - endD) with
  | none => rw [he] at h; simp at h
  | some e =>
    rw [he] at h
    simp only [Option.map_some'] at h
    have hch : (⟨I.members, I.startD, e, I.geomU, I.ctype⟩ : Chain G) = ch :=
      (Option.some.injEq _ _).mp h
    subst hch
    exact ⟨rfl, rfl, e, rfl, rfl⟩

/-- C4: the lifecycle-merger decision for a just-closed interval with
construction-tagged successor candidates: when some candidate reaches the
configured `construction_chain_confidence`, a maximum-IOU candidate is
absorbed — the member set is extended with its id and the chain stays
open with its original start — and otherwise the interval finalizes as a
standalone chain closed at the previous day. -/
theorem claim_C4_merge_threshold {G : Type} (ops : GeomOps G) (chainConf : ℚ) (d : Nat)
    (I : Interval G) (cands : List (Obj G)) :
    ((∃ c ∈ cands, chainConf ≤ ops.iou I.geomU c.geom) →
      ∃ c ∈ cands, chainConf ≤ ops.iou I.geomU c.geom
        ∧ (∀ c2 ∈ cands, ops.iou I.geomU c2.geom ≤ ops.iou I.geomU c.geom)
        ∧ mergeStep ops chainConf d I cands
            = Sum.inl ⟨c.oid, I.members ++ [c.oid], I.startD, ops.gunion I.geomU c.geom, I.ctype⟩)
    ∧ ((∀ c ∈ cands, ops.iou I.geomU c.geom < chainConf) →
      mergeStep ops chainConf d I cands = Sum.inr (closeAt (d - 1) I)) := by
  constructor
  · rintro ⟨c0, hc0, hge⟩
    cases hb : bestSuccessor ops I.geomU cands with
    | none =>
      exfalso
      unfold bestSuccessor at hb
      have hperm := List.perm_insertionSort (succLE ops I.geomU) cands
      cases hs : List.insertionSort (succLE ops I.geomU) cands with
      | nil =>
        rw [hs] at hperm
        have hnil : cands = [] := hperm.symm.eq_nil
        subst hnil
        simp at hc0
      | cons x t => rw [hs] at hb; simp at hb
    | some b =>
      rcases bestSuccessor_some_elim ops I.geomU cands b hb with ⟨hbmem, hbmax⟩
      have hble : chainConf ≤ ops.iou I.geomU b.geom := le_trans hge (hbmax c0 hc0)
      refine ⟨b, hbmem, hble, hbmax, ?_⟩
      simp only [mergeStep, hb]
      rw [if_pos hble]
  · intro hall
    cases hb : bestSuccessor ops I.geomU cands with
    | none => simp only [mergeStep, hb]
    | some b =>
      rcases bestSuccessor_some_elim ops I.geomU cands b hb with ⟨hbmem, _⟩
      simp only [mergeStep, hb]
      rw [if_neg (not_le.mpr (hall b hbmem))]

theorem claim_C4_witness :
    mergeStep eOps 5 8 intervalW candsW = Sum.inl ⟨20, [10, 20], 5, 10, "building"⟩
    ∧ mergeStep eOps 5 8 intervalW candsLow = Sum.inr (closeAt 7 intervalW) := by
  constructor
  · obtain ⟨c, hc, _, _, heq⟩ := (claim_C4_merge_threshold eOps 5 8 intervalW candsW).1
      ⟨⟨20, "under construction", "building", 9⟩, by decide, by decide⟩
    have hc20 : c = ⟨20, "under construction", "building", 9⟩ := by simpa [candsW] using hc
    subst hc20
    exact heq
  · exact (claim_C4_merge_threshold eOps 5 8 intervalW candsLow).2 (by decide)

/-- C6: the backward extension discovers no new objects: the tracked set
after initialization (which is where the backward walk runs) is exactly
the construction-tagged objects of the window-start snapshot, whatever
the restrict flag; and every member id appearing in any output-table row
was under construction on some day inside the search window. -/
theorem claim_C6_backward_no_new_objects {G : Type} (ops : GeomOps G) (cfg : Config)
    (snap : Nat → List (Obj G)) (r : RunResult G)
    (hr : locate_construction ops cfg snap = Except.ok r) :
    ((initState snap cfg.startD cfg.minDate cfg.restrictWindow).tracked.map
        (fun I => (I.oid, I.members))
      = ((snap cfg.startD).filter (fun o => isCons o.tag)).map (fun o => (o.oid, [o.oid])))
    ∧ ∀ row ∈ r.in_progress ++ r.collection, ∀ i ∈ row.members,
        ∃ d, cfg.startD ≤ d ∧ d ≤ cfg.endD ∧ isConsAt (snap d) i = true := by
  obtain ⟨hv, hw, hc, _⟩ := locate_ok_elim ops cfg snap r hr
  have hse := (validWindow_elim cfg hv).2.2
  constructor
  · unfold initState
    rw [List.map_map]
    rfl
  · have hok := windowState_stateOK ops snap cfg.startD cfg.endD cfg.minDate
      cfg.restrictWindow cfg.chainConf hse
    intro row hrow i hi
    rcases List.mem_append.mp hrow with h | h
    · rw [hw] at h
      rcases assemble_mem_rev _ 0 _ row h with ⟨j, I, hI, hrw⟩
      subst hrw
      have hIt : I ∈ (pipeState ops cfg snap).tracked := by
        unfold pipeOpen stillOpen at hI
        split at hI
        · exact hI
        · exact (List.mem_filter.mp hI).1
      exact hok.1 I hIt i hi
    · rw [hc] at h
      rcases assemble_mem_rev _ 0 _ row h with ⟨j, ch, hch, hrw⟩
      subst hrw
      unfold pipeClosed at hch
      rcases List.mem_append.mp hch with hch | hch
      · exact hok.2 ch hch i hi
      · unfold extraClosed at hch
        split at hch
        · simp at hch
        · rcases List.mem_filterMap.mp hch with ⟨I, hIt, hfc⟩
          have hm := (forwardClose_elim snap cfg.endD cfg.today I ch hfc).1
          have hi2 : i ∈ I.members := by
            rw [← hm]
            exact hi
          exact hok.1 I hIt i hi2

theorem claim_C6_witness :
    ((initState snapC (5 : Nat) 0 false).tracked.map (fun I => (I.oid, I.members))
        = ((snapC 5).filter (fun o => isCons o.tag)).map (fun o => (o.oid, [o.oid])))
    ∧ ∃ d, 5 ≤ d ∧ d ≤ 10 ∧ isConsAt (snapC d) 10 = true := by
  have h := claim_C6_backward_no_new_objects eOps cfgC snapC resC (by decide)
  exact ⟨h.1, h.2 rowC1 (by decide) 10 (by decide)⟩

/-- C10: a successful run always returns both tables in memory in the
fixed order (work-in-progress, completed collection), independently of
the save-wip flag, which only controls whether the in-progress table is
additionally written to its file; the collection file is always
written. -/
theorem claim_C10_returned_tables {G : Type} (ops : GeomOps G) (cfg : Config)
    (snap : Nat → List (Obj G)) :
    (∀ b b' : Bool,
      Except.map returnedPair (locate_construction ops {cfg with saveWip := b} snap)
        = Except.map returnedPair (locate_construction ops {cfg with saveWip := b'} snap))
    ∧ ∀ r : RunResult G, locate_construction ops cfg snap = Except.ok r →
        returnedPair r = (r.in_progress, r.collection)
        ∧ (collectionFile, r.collection) ∈ r.files
        ∧ (((inProgressFile, r.in_progress) ∈ r.files) ↔ cfg.saveWip = true) := by
  constructor
  · intro b b'
    have h1 : validWindow {cfg with saveWip := b} = validWindow cfg := rfl
    have h2 : validWindow {cfg with saveWip := b'} = validWindow cfg := rfl
    unfold locate_construction
    rw [h1, h2]
    by_cases hv : validWindow cfg = true
    · rw [if_pos hv, if_pos hv]
      rfl
    · rw [if_neg hv, if_neg hv]
  · intro r hr
    obtain ⟨hv, hw, hc, hf⟩ := locate_ok_elim ops cfg snap r hr
    refine ⟨rfl, ?_, ?_⟩
    · rw [hf]
      exact List.mem_cons_self _ _
    · rw [hf]
      cases hsw : cfg.saveWip with
      | true =>
        simp
      | false =>
        simp only [if_false, Bool.false_eq_true, iff_false]
        intro hmem
        rcases List.mem_cons.mp hmem with hpair | hnil
        · have : inProgressFile = collectionFile := congrArg Prod.fst hpair
          exact absurd this (by decide)
        · simp at hnil

theorem claim_C10_witness :
    Except.map returnedPair (locate_construction eOps {cfgC with saveWip := true} snapC)
        = Except.map returnedPair (locate_construction eOps {cfgC with saveWip := false} snapC)
    ∧ returnedPair resC = (resC.in_progress, resC.collection)
    ∧ (collectionFile, resC.collection) ∈ resC.files
    ∧ (((inProgressFile, resC.in_progress) ∈ resC.files) ↔ cfgC.saveWip = true) := by
  have h := claim_C10_returned_tables eOps cfgC snapC
  have h2 := h.2 resC (by decide)
  exact ⟨h.1 true false, h2.1, h2.2.1, h2.2.2⟩

end CSiteSpec

namespace CSiteSpec

theorem mergeStep_nil {G : Type} (ops : GeomOps G) (cc : ℚ) (d : Nat) (I : Interval G) :
    mergeStep ops cc d I [] = Sum.inr (closeAt (d - 1) I) := rfl

theorem forwardEnd_finds {G : Type} (snap : Nat → List (Obj G)) (i : Nat) :
    ∀ (k fuel cur : Nat), k < fuel →
      (∀ j, j < k → isConsAt (snap (cur + j)) i = true) →
      isConsAt (snap (cur + k)) i = false →
      forwardEnd snap i cur fuel = some (cur + k - 1) := by
  intro k
  induction k with
  | zero =>
    intro fuel cur hk hall hnot
    cases fuel with
    | zero => omega
    | succ f =>
      rw [Nat.add_zero] at hnot
      simp only [forwardEnd]
      have hneg : ¬ (isConsAt (snap cur) i = true) := by
        rw [hnot]
        simp
      rw [if_neg hneg]
      simp
  | succ k ih =>
    intro fuel cur hk hall hnot
    cases fuel with
    | zero => omega
    | succ f =>
      simp only [forwardEnd]
      have h0 : isConsAt (snap cur) i = true := by
        have := hall 0 (Nat.succ_pos k)
        rwa [Nat.add_zero] at this
      rw [if_pos h0]
      have hres := ih f (cur + 1) (by omega)
        (fun j hj => by
          have := hall (j + 1) (by omega)
          rwa [(by omega : cur + (j + 1) = cur + 1 + j)] at this)
        (by rwa [(by omega : cur + 1 + k = cur + (k + 1))])
      rw [hres]
      congr 1
      omega

theorem dateRange_split (a b c : Nat) (h1 : a ≤ b + 1) (h2 : b ≤ c) :
    dateRange a c = dateRange a b ++ dateRange (b + 1) c := by
  unfold dateRange
  rw [(by omega : c + 1 - (b + 1) = c - b)]
  rw [(by omega : c + 1 - a = (c - b) + (b + 1 - a))]
  rw [← List.range'_append_1 a (b + 1 - a) (c - b)]
  rw [(by omega : a + (b + 1 - a) = b + 1)]

theorem stepDate_keeps_interval {G : Type} (ops : GeomOps G) (cc : ℚ)
    (snap : Nat → List (Obj G)) (st : TrackState G) (d : Nat) (I : Interval G)
    (hI : I ∈ st.tracked) (hcons : isConsAt (snap d) I.oid = true) :
    ∃ I2 ∈ (stepDate ops cc snap st d).tracked,
      I2.oid = I.oid ∧ I2.members = I.members ∧ I2.startD = I.startD := by
  refine ⟨updGeom ops (snap d) I, ?_, updGeom_oid ops (snap d) I,
    updGeom_members ops (snap d) I, updGeom_startD ops (snap d) I⟩
  simp only [stepDate, List.mem_append]
  left
  left
  rw [List.mem_map]
  exact ⟨I, List.mem_filter.mpr ⟨hI, by simp [hcons]⟩, rfl⟩

theorem foldl_keeps_interval {G : Type} (ops : GeomOps G) (cc : ℚ)
    (snap : Nat → List (Obj G)) (oid0 : Nat) (ms0 : List Nat) (s0 : Nat) :
    ∀ (l : List Nat), (∀ d ∈ l, isConsAt (snap d) oid0 = true) →
      ∀ st : TrackState G,
        (∃ I ∈ st.tracked, I.oid = oid0 ∧ I.members = ms0 ∧ I.startD = s0) →
        ∃ I ∈ (l.foldl (stepDate ops cc snap) st).tracked,
          I.oid = oid0 ∧ I.members = ms0 ∧ I.startD = s0 := by
  intro l
  induction l with
  | nil =>
    intro _ st h
    simpa using h
  | cons x t ih =>
    intro hlcons st hst
    rw [List.foldl_cons]
    apply ih (fun d hd => hlcons d (List.mem_cons_of_mem x hd))
    obtain ⟨I, hIt, hoid, hmem, hstart⟩ := hst
    obtain ⟨I2, hI2t, h2oid, h2mem, h2start⟩ := stepDate_keeps_interval ops cc snap st x I hIt
      (by rw [hoid]; exact hlcons x (List.mem_cons_self x t))
    exact ⟨I2, hI2t, h2oid.trans hoid, h2mem.trans hmem, h2start.trans hstart⟩

theorem stepDate_closes_interval {G : Type} (ops : GeomOps G) (cc : ℚ)
    (snap : Nat → List (Obj G)) (st : TrackState G) (d : Nat) (I : Interval G)
    (hI : I ∈ st.tracked) (h : ∀ c ∈ snap d, isCons c.tag = false) :
    closeAt (d - 1) I ∈ (stepDate ops cc snap st d).closed := by
  simp only [stepDate, List.mem_append]
  right
  rw [List.mem_filterMap]
  refine ⟨Sum.inr (closeAt (d - 1) I), ?_, rfl⟩
  rw [List.mem_map]
  refine ⟨I, ?_, ?_⟩
  · rw [List.mem_filter]
    refine ⟨hI, ?_⟩
    simp [isConsAt_false_of_all (snap d) I.oid h]
  · have hsucc : succCandidates (snap d) (st.tracked.map (fun I => I.oid)) = [] := by
      unfold succCandidates
      rw [List.filter_eq_nil_iff]
      intro c hc
      simp [h c hc]
    rw [hsucc]
    exact mergeStep_nil ops cc d I

/-- C5: with `restrict_window` false, an interval still open at the window
end whose object first stops being construction at day `dstar` within ten
days past today is closed by the forward walk and appears in the
completed collection with the discovered end date `dstar - 1`. -/
theorem claim_C5_forward_walk {G : Type} (ops : GeomOps G) (cfg : Config)
    (snap : Nat → List (Obj G)) (r : RunResult G)
    (hr : locate_construction ops cfg snap = Except.ok r)
    (hres : cfg.restrictWindow = false)
    (I : Interval G) (hI : I ∈ (pipeState ops cfg snap).tracked)
    (dstar : Nat) (hd1 : cfg.endD < dstar) (hd2 : dstar ≤ cfg.today + 10)
    (hnot : isConsAt (snap dstar) I.oid = false)
    (hcons : ∀ d ∈ dateRange (cfg.endD + 1) (dstar - 1), isConsAt (snap d) I.oid = true) :
    ∃ row ∈ r.collection, row.members = I.members ∧ row.startD = I.startD
      ∧ row.endD = dstar - 1 := by
  obtain ⟨hv, _, hc, _⟩ := locate_ok_elim ops cfg snap r hr
  have hfe : forwardEnd snap I.oid (cfg.endD + 1) (cfg.today + 10 - cfg.endD)
      = some (dstar - 1) := by
    have hk := forwardEnd_finds snap I.oid (dstar - (cfg.endD + 1))
      (cfg.today + 10 - cfg.endD) (cfg.endD + 1) (by omega)
      (fun j hj => hcons (cfg.endD + 1 + j) (by
        unfold dateRange
        rw [List.mem_range'_1]
        omega))
      (by rwa [(by omega : cfg.endD + 1 + (dstar - (cfg.endD + 1)) = dstar)])
    rwa [(by omega : cfg.endD + 1 + (dstar - (cfg.endD + 1)) - 1 = dstar - 1)] at hk
  have hfc : forwardClose snap cfg.endD cfg.today I
      = some ⟨I.members, I.startD, dstar - 1, I.geomU, I.ctype⟩ := by
    unfold forwardClose
    rw [hfe]
    rfl
  have hmem : (⟨I.members, I.startD, dstar - 1, I.geomU, I.ctype⟩ : Chain G)
      ∈ pipeClosed ops cfg snap := by
    unfold pipeClosed
    apply List.mem_append_right
    unfold extraClosed
    rw [hres]
    simp only [Bool.false_eq_true, if_false]
    exact List.mem_filterMap.mpr ⟨I, hI, hfc⟩
  rcases assemble_mem (mkRow ops snap cfg.tagConf) 0 _ _ hmem with ⟨j, hj⟩
  rw [← hc] at hj
  exact ⟨_, hj, rfl, rfl, rfl⟩

theorem claim_C5_witness :
    ∃ row ∈ resA.collection, row.members = [1] ∧ row.startD = 5 ∧ row.endD = 12 := by
  have h := claim_C5_forward_walk eOps cfgA snapA resA (by decide) (by decide)
    ⟨1, [1], 5, 1, "building"⟩ (by decide) 13 (by decide) (by decide) (by decide) (by decide)
  simpa using h

/-- C9: with `restrict_window` set, an object already under construction at
the window start keeps start date exactly the window start (no backward
walk runs), and when its construction is last observed on day `e` inside
the window (and nothing is under construction on day `e + 1`) its chain
is emitted in the collection with end date exactly `e`. -/
theorem claim_C9_restrict_window {G : Type} (ops : GeomOps G) (cfg : Config)
    (snap : Nat → List (Obj G)) (r : RunResult G)
    (hr : locate_construction ops cfg snap = Except.ok r)
    (hres : cfg.restrictWindow = true)
    (o : Obj G) (ho : o ∈ snap cfg.startD) (hot : isCons o.tag = true)
    (e : Nat) (he1 : cfg.startD ≤ e) (he2 : e < cfg.endD)
    (hcons : ∀ d ∈ dateRange (cfg.startD + 1) e, isConsAt (snap d) o.oid = true)
    (hend : ∀ c ∈ snap (e + 1), isCons c.tag = false) :
    ∃ row ∈ r.collection, row.members = [o.oid] ∧ row.startD = cfg.startD
      ∧ row.endD = e := by
  obtain ⟨hv, _, hc, _⟩ := locate_ok_elim ops cfg snap r hr
  have hbase : ∃ I ∈ (initState snap cfg.startD cfg.minDate
      cfg.restrictWindow : TrackState G).tracked,
      I.oid = o.oid ∧ I.members = [o.oid] ∧ I.startD = cfg.startD := by
    rw [hres]
    refine ⟨⟨o.oid, [o.oid], cfg.startD, o.geom, o.ctype⟩, ?_, rfl, rfl, rfl⟩
    unfold initState
    rw [List.mem_map]
    refine ⟨o, List.mem_filter.mpr ⟨ho, hot⟩, ?_⟩
    simp
  have hP1 := foldl_keeps_interval ops cfg.chainConf snap o.oid [o.oid] cfg.startD
    (dateRange (cfg.startD + 1) e) hcons
    (initState snap cfg.startD cfg.minDate cfg.restrictWindow) hbase
  have hsplit : dateRange (cfg.startD + 1) cfg.endD
      = dateRange (cfg.startD + 1) e ++ dateRange (e + 1) cfg.endD :=
    dateRange_split (cfg.startD + 1) e cfg.endD (by omega) (by omega)
  have hstep : dateRange (e + 1) cfg.endD = (e + 1) :: dateRange (e + 2) cfg.endD := by
    unfold dateRange
    rw [(by omega : cfg.endD + 1 - (e + 1) = (cfg.endD + 1 - (e + 2)) + 1)]
    rfl
  obtain ⟨I, hIt, hoid, hmem, hstart⟩ := hP1
  have hch : closeAt e I ∈ (windowState ops snap cfg.startD cfg.endD cfg.minDate
      cfg.restrictWindow cfg.chainConf).closed := by
    unfold windowState
    rw [hsplit, List.foldl_append, hstep, List.foldl_cons]
    apply foldl_closed_mono
    have hcl := stepDate_closes_interval ops cfg.chainConf snap _ (e + 1) I hIt hend
    rwa [(by omega : e + 1 - 1 = e)] at hcl
  have hchain : closeAt e I ∈ pipeClosed ops cfg snap := by
    unfold pipeClosed
    exact List.mem_append_left _ hch
  rcases assemble_mem (mkRow ops snap cfg.tagConf) 0 _ _ hchain with ⟨j, hj⟩
  rw [← hc] at hj
  refine ⟨_, hj, ?_, ?_, rfl⟩
  · exact hmem
  · exact hstart

theorem claim_C9_witness :
    ∃ row ∈ resB.collection, row.members = [1] ∧ row.startD = 5 ∧ row.endD = 7 :=
  claim_C9_restrict_window eOps cfgB snapB resB (by decide) (by decide)
    ⟨1, "under construction", "building", 1⟩ (by decide) (by decide) 7 (by decide)
    (by decide) (by decide) (by decide)

end CSiteSpec
